import Mathlib

/-!
Verification development for the zoomcalib homography-refinement sources
(`refine_homography.py` and `refine_homographies2.py`).

The Python code is shallowly embedded: machine floating-point values are
modelled as real numbers, `math.sqrt` (which raises `ValueError` on a
negative argument) as an `Except`-valued function, `np.sqrt` (which yields
NaN on a negative argument) as an `Option`-valued function, and the
right-singular-vector extraction performed by `np.linalg.svd` as an
explicit function parameter, since SVD is an opaque numerical routine
whose only contract used by the code is orthogonality of its factors.
-/

set_option maxHeartbeats 1600000

noncomputable section

namespace ZoomCalib

open Matrix

/-- The kinds of Python exceptions the embedded code can surface:
`IntrinsicsEstimationError` (declared in `refine_homography.py`),
`ValueError` (raised by `math.sqrt` on a negative argument), and
`NameError` (raised when an undefined name is referenced). -/
inductive PyError where
  | intrinsicsEstimationError
  | valueError
  | nameError
deriving DecidableEq

abbrev Mat3 := Matrix (Fin 3) (Fin 3) ℝ

abbrev Mat4 := Matrix (Fin 4) (Fin 4) ℝ

abbrev Mat34 := Matrix (Fin 3) (Fin 4) ℝ

/-- Model of `math.sqrt`: raises `ValueError` on a negative argument, otherwise
returns the square root. -/
def mathSqrt (x : ℝ) : Except PyError ℝ :=
  if x < 0 then .error .valueError else .ok (Real.sqrt x)

/-- Model of `np.sqrt`: silently produces NaN (modelled as `none`) on a negative
argument; no exception is raised. -/
def npSqrt (x : ℝ) : Option ℝ :=
  if x < 0 then none else some (Real.sqrt x)

/-- Embedding of `_check_homographies` from `refine_homography.py`: raises
`IntrinsicsEstimationError` when fewer than `nmin` homographies are
supplied. -/
def check_homographies (homographies : List Mat3) (nmin : ℕ) :
    Except PyError Unit :=
  if homographies.length < nmin then .error .intrinsicsEstimationError
  else .ok ()

/-- Embedding of `_coeff_vec` from `refine_homography.py`: the coefficient row built
from columns `i` and `j` of the homography `H`. -/
def coeff_vec (H : Mat3) (i j : Fin 3) : Fin 6 → ℝ :=
  let a0 := H 0 i
  let a1 := H 1 i
  let a2 := H 2 i
  let b0 := H 0 j
  let b1 := H 1 j
  let b2 := H 2 j
  ![a0 * b0, a0 * b1 + a1 * b0, a1 * b1, a2 * b0 + a0 * b2,
    a2 * b1 + a1 * b2, a2 * b2]

/-- The `v0` quantity computed inside `_cam_matrix_from_B`. -/
def camB_v0 (b11 b12 b22 b13 b23 : ℝ) : ℝ :=
  (b12 * b13 - b11 * b23) / (b11 * b22 - b12 * b12)

/-- The `lambda_` quantity computed inside `_cam_matrix_from_B`. -/
def camB_lambda (b11 b12 b22 b13 b23 b33 : ℝ) : ℝ :=
  b33 - (b13 * b13 + camB_v0 b11 b12 b22 b13 b23 * (b12 * b13 - b11 * b23)) / b11

/-- The argument of the first `sqrt` inside `_cam_matrix_from_B`
(the one defining `alpha`). -/
def camB_arg1 (b11 b12 b22 b13 b23 b33 : ℝ) : ℝ :=
  camB_lambda b11 b12 b22 b13 b23 b33 / b11

/-- The argument of the second `sqrt` inside `_cam_matrix_from_B`
(the one defining `beta`). -/
def camB_arg2 (b11 b12 b22 b13 b23 b33 : ℝ) : ℝ :=
  camB_lambda b11 b12 b22 b13 b23 b33 * b11 / (b11 * b22 - b12 * b12)

/-- The `gamma` quantity computed inside `_cam_matrix_from_B`. -/
def camB_gamma (b11 b12 b22 b13 b23 b33 alpha beta : ℝ) : ℝ :=
  -b12 * alpha * alpha * beta / camB_lambda b11 b12 b22 b13 b23 b33

/-- The `u0` quantity computed inside `_cam_matrix_from_B`. -/
def camB_u0 (b11 b12 b22 b13 b23 b33 alpha beta : ℝ) : ℝ :=
  camB_gamma b11 b12 b22 b13 b23 b33 alpha beta *
      camB_v0 b11 b12 b22 b13 b23 / beta -
    b13 * alpha * alpha / camB_lambda b11 b12 b22 b13 b23 b33

/-- Embedding of `_cam_matrix_from_B` from `refine_homography.py`: closed-form recovery
of the intrinsics matrix `K` from the entries of `B = K⁻ᵀK⁻¹`.  The two
`math.sqrt` calls can raise `ValueError`. -/
def cam_matrix_from_B (b11 b12 b22 b13 b23 b33 : ℝ) : Except PyError Mat3 :=
  match mathSqrt (camB_arg1 b11 b12 b22 b13 b23 b33) with
  | .error e => .error e
  | .ok alpha =>
    match mathSqrt (camB_arg2 b11 b12 b22 b13 b23 b33) with
    | .error e => .error e
    | .ok beta =>
      .ok (Matrix.of
        ![![alpha, camB_gamma b11 b12 b22 b13 b23 b33 alpha beta,
            camB_u0 b11 b12 b22 b13 b23 b33 alpha beta],
          ![0, beta, camB_v0 b11 b12 b22 b13 b23],
          ![0, 0, 1]])

/-- The constraint rows stacked by `estimate_intrinsics`: two rows per
homography, plus a synthetic zero-skew row when exactly two homographies
are given. -/
def intrinsics_constraints (homographies : List Mat3) : List (Fin 6 → ℝ) :=
  (homographies.flatMap fun H =>
    [coeff_vec H 0 1, coeff_vec H 0 0 - coeff_vec H 1 1]) ++
  (if homographies.length = 2 then [![0, 1, 0, 0, 0, 0]] else [])

/-- Embedding of `estimate_intrinsics` from `refine_homography.py`.  `svd6` stands for
the `np.linalg.svd`-based extraction of the right-singular vector of
smallest singular value of the stacked constraint matrix. -/
def estimate_intrinsics (svd6 : List (Fin 6 → ℝ) → Fin 6 → ℝ)
    (homographies : List Mat3) : Except PyError Mat3 :=
  match check_homographies homographies 2 with
  | .error e => .error e
  | .ok _ =>
    cam_matrix_from_B (svd6 (intrinsics_constraints homographies) 0)
      (svd6 (intrinsics_constraints homographies) 1)
      (svd6 (intrinsics_constraints homographies) 2)
      (svd6 (intrinsics_constraints homographies) 3)
      (svd6 (intrinsics_constraints homographies) 4)
      (svd6 (intrinsics_constraints homographies) 5)

/-- Model of `np.delete(C, 1, axis=1)`: dropping the `b12` column from a
six-column constraint row. -/
def delete_col1 (r : Fin 6 → ℝ) : Fin 5 → ℝ :=
  ![r 0, r 2, r 3, r 4, r 5]

/-- The constraint rows stacked by `estimate_intrinsics_noskew` (the same
two rows per homography, with the `b12` column deleted). -/
def noskew_constraints (homographies : List Mat3) : List (Fin 5 → ℝ) :=
  (homographies.flatMap fun H =>
    [coeff_vec H 0 1, coeff_vec H 0 0 - coeff_vec H 1 1]).map delete_col1

/-- Embedding of `estimate_intrinsics_noskew` from `refine_homography.py`: as
`estimate_intrinsics` but with `b12 = 0`. -/
def estimate_intrinsics_noskew (svd5 : List (Fin 5 → ℝ) → Fin 5 → ℝ)
    (homographies : List Mat3) : Except PyError Mat3 :=
  match check_homographies homographies 2 with
  | .error e => .error e
  | .ok _ =>
    cam_matrix_from_B (svd5 (noskew_constraints homographies) 0) 0
      (svd5 (noskew_constraints homographies) 1)
      (svd5 (noskew_constraints homographies) 2)
      (svd5 (noskew_constraints homographies) 3)
      (svd5 (noskew_constraints homographies) 4)

/-- The reduced three-column constraint rows stacked by
`estimate_intrinsics_noskew_assume_cxy`. -/
def cxy_constraints (homographies : List Mat3) (cxy : ℝ × ℝ) :
    List (Fin 3 → ℝ) :=
  homographies.flatMap fun H =>
    let h00 := H 0 0
    let h10 := H 1 0
    let h20 := H 2 0
    let h01 := H 0 1
    let h11 := H 1 1
    let h21 := H 2 1
    let u0 := cxy.1
    let v0 := cxy.2
    [![h00 * h01 - u0 * h00 * h21 - u0 * h01 * h20 + u0 * u0 * h20 * h21,
       h10 * h11 - v0 * h10 * h21 - v0 * h11 * h20 + v0 * v0 * h20 * h21,
       h20 * h21],
     ![h00 * h00 - h01 * h01 - 2 * u0 * h00 * h20 + 2 * u0 * h01 * h21 +
         u0 * u0 * h20 * h20 - u0 * u0 * h21 * h21,
       h10 * h10 - h11 * h11 - 2 * v0 * h10 * h20 + 2 * v0 * h11 * h21 +
         v0 * v0 * h20 * h20 - v0 * v0 * h21 * h21,
       h20 * h20 - h21 * h21]]

/-- Embedding of `estimate_intrinsics_noskew_assume_cxy` from `refine_homography.py`:
`alpha` and `beta` are obtained with `np.sqrt`, so a negative argument
yields a NaN entry (modelled as `none`) instead of an exception. -/
def estimate_intrinsics_noskew_assume_cxy
    (svd3v : List (Fin 3 → ℝ) → Fin 3 → ℝ) (homographies : List Mat3)
    (cxy : ℝ × ℝ) : Except PyError (Matrix (Fin 3) (Fin 3) (Option ℝ)) :=
  match check_homographies homographies 1 with
  | .error e => .error e
  | .ok _ =>
    .ok (Matrix.of
      ![![npSqrt (1 / svd3v (cxy_constraints homographies cxy) 0),
          some 0, some cxy.1],
        ![some 0, npSqrt (1 / svd3v (cxy_constraints homographies cxy) 1),
          some cxy.2],
        ![some 0, some 0, some 1]])

/-- The quantity `M = np.linalg.inv(intrinsics).dot(H)` at the start of
`get_extrinsics_from_homography`. -/
def Mraw (H intrinsics : Mat3) : Mat3 := intrinsics⁻¹ * H

/-- Model of `np.linalg.norm` of column `j` of a 3×3 matrix. -/
def colNorm (M : Mat3) (j : Fin 3) : ℝ :=
  Real.sqrt (∑ i : Fin 3, M i j ^ 2)

/-- The quantity `scale = sqrt(M0_scale) * sqrt(M1_scale)` in
`get_extrinsics_from_homography`. -/
def scaleOf (M : Mat3) : ℝ :=
  Real.sqrt (colNorm M 0) * Real.sqrt (colNorm M 1)

/-- The effect of `M /= scale` in `get_extrinsics_from_homography` (entrywise division;
the numpy column views `M0`, `M1` alias the mutated array). -/
def Mscaled (M : Mat3) : Mat3 :=
  Matrix.of fun i j => M i j / scaleOf M

/-- The sign correction `if M[1,2] > 0: M *= -1` in
`get_extrinsics_from_homography`, applied after the rescaling. -/
def Mcorrected (M : Mat3) : Mat3 :=
  let Ms := Mscaled M
  if Ms 1 2 > 0 then -Ms else Ms

/-- Model of `np.cross` of two 3-vectors. -/
def cross3 (a b : Fin 3 → ℝ) : Fin 3 → ℝ :=
  ![a 1 * b 2 - a 2 * b 1, a 2 * b 0 - a 0 * b 2, a 0 * b 1 - a 1 * b 0]

/-- The candidate rotation block assembled in
`get_extrinsics_from_homography`: the two corrected columns of `M` and
their cross product. -/
def rotCandidate (Mc : Mat3) : Mat3 :=
  Matrix.of fun i j =>
    if j = 0 then Mc i 0
    else if j = 1 then Mc i 1
    else cross3 (fun k => Mc k 0) (fun k => Mc k 1) i

/-- Embedding of `get_extrinsics_from_homography` from `refine_homography.py`.  `svd3`
stands for `np.linalg.svd` on the 3×3 candidate block, returning the
factors `U` and `Vt`; the code replaces the rotation block by `U.dot(Vt)`
(polar-decomposition projection).  The translation column is the third
column of the rescaled, sign-corrected `M`, and the fourth row is that of
`np.eye(4)`. -/
def get_extrinsics_from_homography (svd3 : Mat3 → Mat3 × Mat3)
    (H intrinsics : Mat3) : Mat4 :=
  let Mc := Mcorrected (Mraw H intrinsics)
  let UVt := svd3 (rotCandidate Mc)
  let R := UVt.1 * UVt.2
  Matrix.of fun i j =>
    if hi : (i : ℕ) < 3 then
      if hj : (j : ℕ) < 3 then R ⟨(i : ℕ), hi⟩ ⟨(j : ℕ), hj⟩
      else Mc ⟨(i : ℕ), hi⟩ 2
    else if (j : ℕ) = 3 then 1 else 0

/-- The `rotx` factor of `_xyzrph_to_matrix`. -/
def rotx (t : ℝ) : Mat4 :=
  Matrix.of ![![1, 0, 0, 0],
              ![0, Real.cos t, -Real.sin t, 0],
              ![0, Real.sin t, Real.cos t, 0],
              ![0, 0, 0, 1]]

/-- The `roty` factor of `_xyzrph_to_matrix`. -/
def roty (t : ℝ) : Mat4 :=
  Matrix.of ![![Real.cos t, 0, Real.sin t, 0],
              ![0, 1, 0, 0],
              ![-Real.sin t, 0, Real.cos t, 0],
              ![0, 0, 0, 1]]

/-- The `rotz` factor of `_xyzrph_to_matrix`. -/
def rotz (t : ℝ) : Mat4 :=
  Matrix.of ![![Real.cos t, -Real.sin t, 0, 0],
              ![Real.sin t, Real.cos t, 0, 0],
              ![0, 0, 1, 0],
              ![0, 0, 0, 1]]

/-- The `translate` factor of `_xyzrph_to_matrix`. -/
def translateM (x y z : ℝ) : Mat4 :=
  Matrix.of ![![1, 0, 0, x],
              ![0, 1, 0, y],
              ![0, 0, 1, z],
              ![0, 0, 0, 1]]

/-- Embedding of `_xyzrph_to_matrix` from `refine_homography.py`:
`reduce(np.dot, [translate(x,y,z), rotz(h), roty(p), rotx(r)])`. -/
def xyzrph_to_matrix (x y z r p h : ℝ) : Mat4 :=
  translateM x y z * rotz h * roty p * rotx r

/-- Model of `np.arctan2 y x`: the argument of the point `(x, y)`, in `(-π, π]`. -/
def arctan2 (y x : ℝ) : ℝ := Complex.arg ⟨x, y⟩

/-- Embedding of `_matrix_to_xyzrph` from `refine_homography.py`. -/
def matrix_to_xyzrph (M : Mat4) : ℝ × ℝ × ℝ × ℝ × ℝ × ℝ :=
  (M 0 3, M 1 3, M 2 3,
   arctan2 (M 2 1) (M 2 2),
   arctan2 (-(M 2 0)) (Real.sqrt (M 0 0 * M 0 0 + M 1 0 * M 1 0)),
   arctan2 (M 1 0) (M 0 0))

/-- Embedding of `intrinsics_to_matrix` (named `_intrisics_to_matrix` in
`refine_homography.py`): the 3×4 projection-style intrinsics matrix. -/
def intrinsics_to_matrix (fx fy cx cy : ℝ) : Mat34 :=
  Matrix.of ![![fx, 0, cx, 0], ![0, fy, cy, 0], ![0, 0, 1, 0]]

/-- Embedding of `IntrinsicsNode` from `refine_homographies2.py`: `{fx, fy, cx, cy}`
plus an identifying tag. -/
structure IntrinsicsNode where
  fx : ℝ
  fy : ℝ
  cx : ℝ
  cy : ℝ
  tag : String

/-- Embedding of `IntrinsicsNode.to_tuple`. -/
def IntrinsicsNode.to_tuple (n : IntrinsicsNode) : ℝ × ℝ × ℝ × ℝ :=
  (n.fx, n.fy, n.cx, n.cy)

/-- Embedding of `IntrinsicsNode.set_value`: overwrites the four parameters, keeping
the tag. -/
def IntrinsicsNode.set_value (n : IntrinsicsNode) (t : ℝ × ℝ × ℝ × ℝ) :
    IntrinsicsNode :=
  ⟨t.1, t.2.1, t.2.2.1, t.2.2.2, n.tag⟩

/-- Embedding of `IntrinsicsNode.to_matrix`. -/
def IntrinsicsNode.to_matrix (n : IntrinsicsNode) : Mat34 :=
  intrinsics_to_matrix n.fx n.fy n.cx n.cy

/-- Embedding of `ExtrinsicsNode` from `refine_homographies2.py`: translation and
roll/pitch/heading plus an identifying tag. -/
structure ExtrinsicsNode where
  x : ℝ
  y : ℝ
  z : ℝ
  r : ℝ
  p : ℝ
  h : ℝ
  tag : String

/-- Embedding of `ExtrinsicsNode.to_tuple`. -/
def ExtrinsicsNode.to_tuple (n : ExtrinsicsNode) : ℝ × ℝ × ℝ × ℝ × ℝ × ℝ :=
  (n.x, n.y, n.z, n.r, n.p, n.h)

/-- Embedding of `ExtrinsicsNode.set_value`: overwrites the six parameters, keeping
the tag. -/
def ExtrinsicsNode.set_value (n : ExtrinsicsNode)
    (t : ℝ × ℝ × ℝ × ℝ × ℝ × ℝ) : ExtrinsicsNode :=
  ⟨t.1, t.2.1, t.2.2.1, t.2.2.2.1, t.2.2.2.2.1, t.2.2.2.2.2, n.tag⟩

/-- Embedding of `ExtrinsicsNode.to_matrix`. -/
def ExtrinsicsNode.to_matrix (n : ExtrinsicsNode) : Mat4 :=
  xyzrph_to_matrix n.x n.y n.z n.r n.p n.h

/-- Embedding of `HomographyConstraint` from `refine_homographies2.py`: the snapshot
taken at construction time — source points of the correspondences (lifted
to homogeneous form when projected), observed target points, the diagonal
of the weight matrix `W`, and the two referenced nodes. -/
structure HomographyConstraint where
  p_src : List (ℝ × ℝ)
  p_tgt : List (ℝ × ℝ)
  W : List ℝ
  inode : IntrinsicsNode
  enode : ExtrinsicsNode

/-- Embedding of `HomographyConstraint.sq_unweighted_reprojection_errors`: compose
`H = K.dot(E)`, push the homogeneous source points `(x, y, 0, 1)`
through it, divide by the homogeneous coordinate, subtract the targets
and square — a 2×N array, returned here as its two rows. -/
def HomographyConstraint.sq_unweighted_reprojection_errors
    (c : HomographyConstraint) : List ℝ × List ℝ :=
  let K := c.inode.to_matrix
  let E := c.enode.to_matrix
  let H := K * E
  let mapped := c.p_src.map fun s =>
    let q : Fin 3 → ℝ := fun i => H i 0 * s.1 + H i 1 * s.2 + H i 2 * 0 + H i 3 * 1
    (q 0 / q 2, q 1 / q 2)
  (List.zipWith (fun m t => (m.1 - t.1) ^ 2) mapped c.p_tgt,
   List.zipWith (fun m t => (m.2 - t.2) ^ 2) mapped c.p_tgt)

/-- Model of `np.ravel` of a 2×N array presented as its two rows (row-major). -/
def ravel2 (rows : List ℝ × List ℝ) : List ℝ := rows.1 ++ rows.2

/-- The `pseudo_huber_loss` function nested in
`HomographyConstraint.sq_errors`: `np.where(abserr <= delta, sqerr/2.,
delta*(abserr - delta/2.))` with `abserr = np.sqrt(sqerr)`. -/
def pseudo_huber (delta sqerr : ℝ) : ℝ :=
  if Real.sqrt sqerr ≤ delta then sqerr / 2
  else delta * (Real.sqrt sqerr - delta / 2)

/-- Embedding of `HomographyConstraint.sq_errors`: the pseudo-Huber robustification
(threshold `1.`) of the flattened squared reprojection errors.  Note that
the stored weight matrix `W` is not consulted. -/
def HomographyConstraint.sq_errors (c : HomographyConstraint) : List ℝ :=
  (ravel2 c.sq_unweighted_reprojection_errors).map (pseudo_huber 1)

/-- Embedding of `ConstraintGraph` from `refine_homographies2.py`: ordered intrinsics
nodes, ordered extrinsics nodes, and the constraint list. -/
structure ConstraintGraph where
  inodes : List IntrinsicsNode
  enodes : List ExtrinsicsNode
  constraints : List HomographyConstraint

/-- Model of `np.hstack` on a list of 1-D arrays: concatenation, raising
`ValueError` (modelled as `none`) when the list is empty. -/
def hstack (ls : List (List ℝ)) : Option (List ℝ) :=
  if ls.isEmpty then none else some ls.flatten

/-- Embedding of `ConstraintGraph.constraint_errors`: the concatenation of every
constraint's `sq_errors`, the residual vector handed to the solver. -/
def ConstraintGraph.constraint_errors (g : ConstraintGraph) :
    Option (List ℝ) :=
  hstack (g.constraints.map HomographyConstraint.sq_errors)

/-- The flat list of an intrinsics 4-tuple. -/
def tuple4_to_list (t : ℝ × ℝ × ℝ × ℝ) : List ℝ :=
  [t.1, t.2.1, t.2.2.1, t.2.2.2]

/-- The flat list of an extrinsics 6-tuple. -/
def tuple6_to_list (t : ℝ × ℝ × ℝ × ℝ × ℝ × ℝ) : List ℝ :=
  [t.1, t.2.1, t.2.2.1, t.2.2.2.1, t.2.2.2.2.1, t.2.2.2.2.2]

/-- Embedding of `ConstraintGraph._pack_into_vector`: intrinsics tuples in insertion
order, then extrinsics tuples in insertion order (each side assembled by
`np.hstack`, which fails on an empty node list). -/
def ConstraintGraph.pack_into_vector (g : ConstraintGraph) :
    Option (List ℝ) :=
  match hstack (g.inodes.map fun i => tuple4_to_list i.to_tuple) with
  | none => none
  | some istate =>
    match hstack (g.enodes.map fun e => tuple6_to_list e.to_tuple) with
    | none => none
    | some estate => some (istate ++ estate)

/-- Model of `np.reshape(v, (-1, 4))`: rows of four, failing when the length is
not a multiple of four. -/
def reshape4 : List ℝ → Option (List (ℝ × ℝ × ℝ × ℝ))
  | [] => some []
  | a :: b :: c :: d :: rest => (reshape4 rest).map (fun l => (a, b, c, d) :: l)
  | _ => none

/-- Model of `np.reshape(v, (-1, 6))`: rows of six, failing when the length is
not a multiple of six. -/
def reshape6 : List ℝ → Option (List (ℝ × ℝ × ℝ × ℝ × ℝ × ℝ))
  | [] => some []
  | a :: b :: c :: d :: e :: f :: rest =>
    (reshape6 rest).map (fun l => (a, b, c, d, e, f) :: l)
  | _ => none

/-- Embedding of `ConstraintGraph._unpack_from_vector`: the first `4*len(inodes)`
entries reshaped into rows of four and assigned to the intrinsics nodes
in order, the rest reshaped into rows of six and assigned to the
extrinsics nodes in order (`zip` semantics). -/
def ConstraintGraph.unpack_from_vector (g : ConstraintGraph)
    (v : List ℝ) : Option ConstraintGraph :=
  let N := g.inodes.length
  match reshape4 (v.take (4 * N)) with
  | none => none
  | some istate =>
    match reshape6 (v.drop (4 * N)) with
    | none => none
    | some estate =>
      some { g with
        inodes := List.zipWith IntrinsicsNode.set_value g.inodes istate,
        enodes := List.zipWith ExtrinsicsNode.set_value g.enodes estate }

/-- The names bound at module level in `refine_homography.py` when
`refine_homography` executes: the four imported names and the module's
own classes and functions. -/
def refine_homography_module_names : List String :=
  ["sqrt", "np", "root", "minimize",
   "IntrinsicsEstimationError", "_check_homographies", "_coeff_vec",
   "_cam_matrix_from_B", "estimate_intrinsics", "estimate_intrinsics_noskew",
   "estimate_intrinsics_noskew_assume_cxy", "get_extrinsics_from_homography",
   "_xyzrph_to_matrix", "_matrix_to_xyzrph", "_intrisics_to_matrix",
   "_matrix_to_intrinsics", "_reprojection_error", "refine_homography",
   "main"]

/-- Python name resolution at a call site: `NameError` when the name is
not bound. -/
def resolve_name (n : String) : Except PyError Unit :=
  if refine_homography_module_names.contains n then .ok ()
  else .error .nameError

/-- Embedding of `refine_homography` from `refine_homography.py`.  Its first statement
evaluates the name `estimate_intrinsics_assume_cxy_noskew`; the rest of
the body is unreachable when that lookup fails and is modelled as an
arbitrary successful result. -/
def refine_homography (H0 : Mat3) (cxy : ℝ × ℝ)
    (p_src p_tgt : List (ℝ × ℝ)) (weights : Option (List ℝ)) :
    Except PyError Mat34 :=
  match resolve_name "estimate_intrinsics_assume_cxy_noskew" with
  | .error e => .error e
  | .ok _ => .ok (intrinsics_to_matrix 0 0 0 0)

/-- A `svd3` stand-in whose factors are identity matrices (trivially
orthogonal), used to evaluate the extrinsics recovery on concrete
inputs. -/
def svdId3 : Mat3 → Mat3 × Mat3 := fun _ => (1, 1)

/-- The upper-left 3×3 rotation block of a 4×4 extrinsics matrix. -/
def rot_block (E : Mat4) : Mat3 :=
  Matrix.of fun i j => E i.castSucc j.castSucc

/- ------------------------------------------------------------------ -/
/- Helper lemmas                                                      -/
/- ------------------------------------------------------------------ -/

lemma sq_errors_eq_of_fields (c₁ c₂ : HomographyConstraint)
    (hs : c₁.p_src = c₂.p_src) (ht : c₁.p_tgt = c₂.p_tgt)
    (hi : c₁.inode = c₂.inode) (he : c₁.enode = c₂.enode) :
    c₁.sq_errors = c₂.sq_errors := by
  obtain ⟨s, t, w, i, e⟩ := c₁
  obtain ⟨s', t', w', i', e'⟩ := c₂
  simp only at hs ht hi he
  subst hs; subst ht; subst hi; subst he
  rfl

lemma zipWith_nonneg {α β : Type} (f : α → β → ℝ)
    (hf : ∀ a b, 0 ≤ f a b) :
    ∀ (l₁ : List α) (l₂ : List β) (s : ℝ), s ∈ List.zipWith f l₁ l₂ → 0 ≤ s := by
  intro l₁
  induction l₁ with
  | nil => intro l₂ s hs; simp at hs
  | cons a l ih =>
    intro l₂ s hs
    cases l₂ with
    | nil => simp at hs
    | cons b l' =>
      simp only [List.zipWith] at hs
      rcases List.mem_cons.mp hs with h | h
      · exact h ▸ hf a b
      · exact ih l' s h

lemma forall2_map_sq_errors {l₁ l₂ : List HomographyConstraint}
    (hf : List.Forall₂ (fun a b : HomographyConstraint =>
      a.p_src = b.p_src ∧ a.p_tgt = b.p_tgt ∧
      a.inode = b.inode ∧ a.enode = b.enode) l₁ l₂) :
    l₁.map HomographyConstraint.sq_errors =
      l₂.map HomographyConstraint.sq_errors := by
  induction hf with
  | nil => rfl
  | cons h _ ih =>
    obtain ⟨h1, h2, h3, h4⟩ := h
    simp only [List.map_cons, ih, List.cons.injEq, and_true]
    exact sq_errors_eq_of_fields _ _ h1 h2 h3 h4

lemma cam_matrix_from_B_no_estimation_error (b11 b12 b22 b13 b23 b33 : ℝ) :
    cam_matrix_from_B b11 b12 b22 b13 b23 b33 ≠
      Except.error PyError.intrinsicsEstimationError := by
  simp only [cam_matrix_from_B, mathSqrt]
  split_ifs <;> simp

lemma cam_matrix_from_B_error_of_neg (b11 b12 b22 b13 b23 b33 : ℝ)
    (h : camB_arg1 b11 b12 b22 b13 b23 b33 < 0 ∨
      camB_arg2 b11 b12 b22 b13 b23 b33 < 0) :
    cam_matrix_from_B b11 b12 b22 b13 b23 b33 =
      .error .valueError := by
  unfold cam_matrix_from_B mathSqrt
  by_cases h1 : camB_arg1 b11 b12 b22 b13 b23 b33 < 0
  · rw [if_pos h1]
  · have h2 := h.resolve_left h1
    rw [if_neg h1, if_pos h2]

/- ------------------------------------------------------------------ -/
/- Claim theorems                                                     -/
/- ------------------------------------------------------------------ -/

/-- Claim C2: two `HomographyConstraint`s that differ only in their
per-correspondence weights produce identical `sq_errors` vectors, and two
`ConstraintGraph`s whose constraints pairwise differ only in weights
produce identical `constraint_errors` residual vectors — the weight
matrix stored at construction never influences the value the solver
minimizes. -/
theorem weights_never_influence_solver_residual :
    (∀ c₁ c₂ : HomographyConstraint,
      c₁.p_src = c₂.p_src → c₁.p_tgt = c₂.p_tgt →
      c₁.inode = c₂.inode → c₁.enode = c₂.enode →
      c₁.sq_errors = c₂.sq_errors) ∧
    (∀ g₁ g₂ : ConstraintGraph,
      List.Forall₂ (fun a b : HomographyConstraint =>
        a.p_src = b.p_src ∧ a.p_tgt = b.p_tgt ∧
        a.inode = b.inode ∧ a.enode = b.enode)
        g₁.constraints g₂.constraints →
      g₁.constraint_errors = g₂.constraint_errors) := by
  constructor
  · exact sq_errors_eq_of_fields
  · intro g₁ g₂ hf
    simp only [ConstraintGraph.constraint_errors, forall2_map_sq_errors hf]

/-- Witness for C2: two concrete constraints with different weight
vectors have equal `sq_errors`. -/
theorem weights_never_influence_solver_residual_witness :
    HomographyConstraint.sq_errors
      ⟨[(0, 0)], [(0, 0)], [1], ⟨1, 1, 0, 0, "i"⟩, ⟨0, 0, 1, 0, 0, 0, "e"⟩⟩ =
    HomographyConstraint.sq_errors
      ⟨[(0, 0)], [(0, 0)], [2], ⟨1, 1, 0, 0, "i"⟩, ⟨0, 0, 1, 0, 0, 0, "e"⟩⟩ :=
  weights_never_influence_solver_residual.1 _ _ rfl rfl rfl rfl

/-- Claim C4: `sq_errors` is the pseudo-Huber robustification with
threshold `δ = 1` of the flattened squared reprojection errors; every
flattened squared error is non-negative, both branch formulas give
`δ²/2 = 1/2` when the absolute error is exactly `1`, and for absolute
error `e > 1` the residual is the linear function `e - 1/2`. -/
theorem sq_errors_is_pseudo_huber (c : HomographyConstraint) :
    c.sq_errors =
      (ravel2 c.sq_unweighted_reprojection_errors).map (pseudo_huber 1) ∧
    (∀ s ∈ ravel2 c.sq_unweighted_reprojection_errors, 0 ≤ s) ∧
    (∀ s : ℝ, Real.sqrt s = 1 →
      s / 2 = 1 ^ 2 / 2 ∧ 1 * (Real.sqrt s - 1 / 2) = 1 ^ 2 / 2) ∧
    (∀ e : ℝ, 1 < e → pseudo_huber 1 (e ^ 2) = e - 1 / 2) := by
  refine ⟨rfl, ?_, ?_, ?_⟩
  · intro s hs
    rcases List.mem_append.mp hs with h | h
    · exact zipWith_nonneg _ (fun a b => sq_nonneg _) _ _ s h
    · exact zipWith_nonneg _ (fun a b => sq_nonneg _) _ _ s h
  · intro s hs
    have : s = 1 := Real.sqrt_eq_one.mp hs
    subst this
    norm_num
  · intro e he
    have h0 : (0 : ℝ) ≤ e := by linarith
    have hsq : Real.sqrt (e ^ 2) = e := Real.sqrt_sq h0
    unfold pseudo_huber
    rw [hsq, if_neg (show ¬ e ≤ 1 by linarith)]
    ring

/-- Witness for C4: the pseudo-Huber residual at absolute error `2`
equals `2 - 1/2`, by the linear-growth clause. -/
theorem sq_errors_is_pseudo_huber_witness :
    pseudo_huber 1 (2 ^ 2) = 2 - 1 / 2 :=
  (sq_errors_is_pseudo_huber
    ⟨[], [], [], ⟨0, 0, 0, 0, "i"⟩, ⟨0, 0, 0, 0, 0, 0, "e"⟩⟩).2.2.2 2
    (by norm_num)

/-- Claim C5: each intrinsics estimator returns
`IntrinsicsEstimationError` exactly when the homography list is shorter
than its minimum — 2 for `estimate_intrinsics`, 2 for
`estimate_intrinsics_noskew`, 1 for
`estimate_intrinsics_noskew_assume_cxy`; with the minimum met no
`IntrinsicsEstimationError` can arise. -/
theorem estimators_raise_iff_insufficient
    (svd6 : List (Fin 6 → ℝ) → Fin 6 → ℝ)
    (svd5 : List (Fin 5 → ℝ) → Fin 5 → ℝ)
    (svd3v : List (Fin 3 → ℝ) → Fin 3 → ℝ)
    (hs : List Mat3) (cxy : ℝ × ℝ) :
    (estimate_intrinsics svd6 hs =
        .error .intrinsicsEstimationError ↔ hs.length < 2) ∧
    (estimate_intrinsics_noskew svd5 hs =
        .error .intrinsicsEstimationError ↔ hs.length < 2) ∧
    (estimate_intrinsics_noskew_assume_cxy svd3v hs cxy =
        .error .intrinsicsEstimationError ↔ hs.length < 1) := by
  refine ⟨?_, ?_, ?_⟩
  · by_cases hl : hs.length < 2
    · simp [estimate_intrinsics, check_homographies, hl]
    · have hrw : estimate_intrinsics svd6 hs =
          cam_matrix_from_B (svd6 (intrinsics_constraints hs) 0)
            (svd6 (intrinsics_constraints hs) 1)
            (svd6 (intrinsics_constraints hs) 2)
            (svd6 (intrinsics_constraints hs) 3)
            (svd6 (intrinsics_constraints hs) 4)
            (svd6 (intrinsics_constraints hs) 5) := by
        unfold estimate_intrinsics check_homographies
        rw [if_neg hl]
      rw [hrw]
      exact iff_of_false (cam_matrix_from_B_no_estimation_error _ _ _ _ _ _) hl
  · by_cases hl : hs.length < 2
    · simp [estimate_intrinsics_noskew, check_homographies, hl]
    · have hrw : estimate_intrinsics_noskew svd5 hs =
          cam_matrix_from_B (svd5 (noskew_constraints hs) 0) 0
            (svd5 (noskew_constraints hs) 1)
            (svd5 (noskew_constraints hs) 2)
            (svd5 (noskew_constraints hs) 3)
            (svd5 (noskew_constraints hs) 4) := by
        unfold estimate_intrinsics_noskew check_homographies
        rw [if_neg hl]
      rw [hrw]
      exact iff_of_false (cam_matrix_from_B_no_estimation_error _ _ _ _ _ _) hl
  · by_cases hl : hs.length < 1
    · simp [estimate_intrinsics_noskew_assume_cxy, check_homographies, hl]
    · refine iff_of_false ?_ hl
      simp [estimate_intrinsics_noskew_assume_cxy, check_homographies, hl]

/-- Witness for C5: with no homographies, `estimate_intrinsics` raises
`IntrinsicsEstimationError`. -/
theorem estimators_raise_iff_insufficient_witness :
    estimate_intrinsics (fun _ => ![0, 0, 0, 0, 0, 0]) [] =
      .error .intrinsicsEstimationError :=
  (estimators_raise_iff_insufficient (fun _ => ![0, 0, 0, 0, 0, 0])
    (fun _ => ![0, 0, 0, 0, 0]) (fun _ => ![0, 0, 0]) [] (0, 0)).1.mpr
    (by decide)

/-- Claim C10: every call to `refine_homography` fails with `NameError`,
because its first statement references
`estimate_intrinsics_assume_cxy_noskew`, which is not among the names
bound in the module (the defined function is
`estimate_intrinsics_noskew_assume_cxy`). -/
theorem refine_homography_always_name_error (H0 : Mat3) (cxy : ℝ × ℝ)
    (p_src p_tgt : List (ℝ × ℝ)) (weights : Option (List ℝ)) :
    refine_homography H0 cxy p_src p_tgt weights = .error .nameError ∧
    refine_homography_module_names.contains
      "estimate_intrinsics_assume_cxy_noskew" = false ∧
    refine_homography_module_names.contains
      "estimate_intrinsics_noskew_assume_cxy" = true := by
  have hfalse : refine_homography_module_names.contains
      "estimate_intrinsics_assume_cxy_noskew" = false := by decide
  refine ⟨?_, hfalse, by decide⟩
  rfl

lemma reshape4_of_flat (l : List (ℝ × ℝ × ℝ × ℝ)) :
    reshape4 (l.map tuple4_to_list).flatten = some l := by
  induction l with
  | nil => rfl
  | cons t l ih =>
    obtain ⟨a, b, c, d⟩ := t
    simp [tuple4_to_list, reshape4, ih]

lemma reshape6_of_flat (l : List (ℝ × ℝ × ℝ × ℝ × ℝ × ℝ)) :
    reshape6 (l.map tuple6_to_list).flatten = some l := by
  induction l with
  | nil => rfl
  | cons t l ih =>
    obtain ⟨a, b, c, d, e, f⟩ := t
    simp [tuple6_to_list, reshape6, ih]

lemma reshape4_total :
    ∀ (k : ℕ) (w : List ℝ), w.length = 4 * k →
    ∃ rows, reshape4 w = some rows ∧
      (rows.map tuple4_to_list).flatten = w ∧ rows.length = k := by
  intro k
  induction k with
  | zero =>
    intro w hw
    rcases List.length_eq_zero.mp hw with rfl
    exact ⟨[], rfl, rfl, rfl⟩
  | succ k ih =>
    intro w hw
    match w with
    | [] => simp only [List.length_nil] at hw; omega
    | [a] => simp only [List.length_cons, List.length_nil] at hw; omega
    | [a, b] => simp only [List.length_cons, List.length_nil] at hw; omega
    | [a, b, c] => simp only [List.length_cons, List.length_nil] at hw; omega
    | a :: b :: c :: d :: rest =>
      have hrest : rest.length = 4 * k := by
        simp only [List.length_cons] at hw; omega
      obtain ⟨rows, h1, h2, h3⟩ := ih rest hrest
      refine ⟨(a, b, c, d) :: rows, ?_, ?_, ?_⟩
      · simp only [reshape4, h1, Option.map_some']
      · simp only [List.map_cons, List.flatten_cons, tuple4_to_list,
          List.cons_append, List.nil_append, h2]
      · simp only [List.length_cons, h3]

lemma reshape6_total :
    ∀ (k : ℕ) (w : List ℝ), w.length = 6 * k →
    ∃ rows, reshape6 w = some rows ∧
      (rows.map tuple6_to_list).flatten = w ∧ rows.length = k := by
  intro k
  induction k with
  | zero =>
    intro w hw
    rcases List.length_eq_zero.mp hw with rfl
    exact ⟨[], rfl, rfl, rfl⟩
  | succ k ih =>
    intro w hw
    match w with
    | [] => simp only [List.length_nil] at hw; omega
    | [a] => simp only [List.length_cons, List.length_nil] at hw; omega
    | [a, b] => simp only [List.length_cons, List.length_nil] at hw; omega
    | [a, b, c] => simp only [List.length_cons, List.length_nil] at hw; omega
    | [a, b, c, d] => simp only [List.length_cons, List.length_nil] at hw; omega
    | [a, b, c, d, e] => simp only [List.length_cons, List.length_nil] at hw; omega
    | a :: b :: c :: d :: e :: f :: rest =>
      have hrest : rest.length = 6 * k := by
        simp only [List.length_cons] at hw; omega
      obtain ⟨rows, h1, h2, h3⟩ := ih rest hrest
      refine ⟨(a, b, c, d, e, f) :: rows, ?_, ?_, ?_⟩
      · simp only [reshape6, h1, Option.map_some']
      · simp only [List.map_cons, List.flatten_cons, tuple6_to_list,
          List.cons_append, List.nil_append, h2]
      · simp only [List.length_cons, h3]

lemma flat4_length (l : List IntrinsicsNode) :
    ((l.map fun i => tuple4_to_list i.to_tuple).flatten).length =
      4 * l.length := by
  induction l with
  | nil => rfl
  | cons n l ih =>
    simp only [List.map_cons, List.flatten_cons, List.length_append, ih,
      List.length_cons]
    have h4 : (tuple4_to_list n.to_tuple).length = 4 := rfl
    omega

lemma flat6_length (l : List ExtrinsicsNode) :
    ((l.map fun e => tuple6_to_list e.to_tuple).flatten).length =
      6 * l.length := by
  induction l with
  | nil => rfl
  | cons n l ih =>
    simp only [List.map_cons, List.flatten_cons, List.length_append, ih,
      List.length_cons]
    have h6 : (tuple6_to_list n.to_tuple).length = 6 := rfl
    omega

lemma map_isEmpty_false {α β : Type} (f : α → β) (l : List α)
    (hl : l ≠ []) : (l.map f).isEmpty = false := by
  cases l with
  | nil => exact absurd rfl hl
  | cons a l => rfl

lemma zipWith_set4_self (l : List IntrinsicsNode) :
    List.zipWith IntrinsicsNode.set_value l
      (l.map IntrinsicsNode.to_tuple) = l := by
  induction l with
  | nil => rfl
  | cons n l ih => simp only [List.map_cons, List.zipWith_cons_cons, ih]; rfl

lemma zipWith_set6_self (l : List ExtrinsicsNode) :
    List.zipWith ExtrinsicsNode.set_value l
      (l.map ExtrinsicsNode.to_tuple) = l := by
  induction l with
  | nil => rfl
  | cons n l ih => simp only [List.map_cons, List.zipWith_cons_cons, ih]; rfl

lemma zipWith_set4_flat (l : List IntrinsicsNode) :
    ∀ rows : List (ℝ × ℝ × ℝ × ℝ), rows.length = l.length →
    ((List.zipWith IntrinsicsNode.set_value l rows).map
        fun i => tuple4_to_list i.to_tuple).flatten =
      (rows.map tuple4_to_list).flatten ∧
    (List.zipWith IntrinsicsNode.set_value l rows).length = l.length := by
  induction l with
  | nil =>
    intro rows hr
    rcases List.length_eq_zero.mp hr with rfl
    exact ⟨rfl, rfl⟩
  | cons n l ih =>
    intro rows hr
    match rows with
    | [] => simp at hr
    | t :: rows' =>
      have hr' : rows'.length = l.length := by
        simp only [List.length_cons] at hr; omega
      obtain ⟨h1, h2⟩ := ih rows' hr'
      constructor
      · simp only [List.zipWith_cons_cons, List.map_cons, List.flatten_cons, h1]
        rfl
      · simp only [List.zipWith_cons_cons, List.length_cons, h2]

lemma zipWith_set6_flat (l : List ExtrinsicsNode) :
    ∀ rows : List (ℝ × ℝ × ℝ × ℝ × ℝ × ℝ), rows.length = l.length →
    ((List.zipWith ExtrinsicsNode.set_value l rows).map
        fun e => tuple6_to_list e.to_tuple).flatten =
      (rows.map tuple6_to_list).flatten ∧
    (List.zipWith ExtrinsicsNode.set_value l rows).length = l.length := by
  induction l with
  | nil =>
    intro rows hr
    rcases List.length_eq_zero.mp hr with rfl
    exact ⟨rfl, rfl⟩
  | cons n l ih =>
    intro rows hr
    match rows with
    | [] => simp at hr
    | t :: rows' =>
      have hr' : rows'.length = l.length := by
        simp only [List.length_cons] at hr; omega
      obtain ⟨h1, h2⟩ := ih rows' hr'
      constructor
      · simp only [List.zipWith_cons_cons, List.map_cons, List.flatten_cons, h1]
        rfl
      · simp only [List.zipWith_cons_cons, List.length_cons, h2]

/-- Claim C3 (counterexample): on a graph with zero intrinsics and zero
extrinsics nodes — a length admitted by the claim's quantifier with
`I = E = 0` — `_pack_into_vector` does not return a vector at all:
`np.hstack` of an empty list raises `ValueError`. -/
theorem pack_raises_on_empty_graph :
    ConstraintGraph.pack_into_vector ⟨[], [], []⟩ = none := rfl

/-- Claim C3 (amended): for every `ConstraintGraph` with at least one
intrinsics node and at least one extrinsics node, and every vector `v` of
length `4*I + 6*E`: unpacking the packed state restores every node
exactly (tags included), and packing after unpacking `v` returns exactly
`v`. -/
theorem pack_unpack_round_trip (g : ConstraintGraph)
    (hI : g.inodes ≠ []) (hE : g.enodes ≠ []) (v : List ℝ)
    (hv : v.length = 4 * g.inodes.length + 6 * g.enodes.length) :
    (∃ s, g.pack_into_vector = some s ∧ g.unpack_from_vector s = some g) ∧
    (∃ g2, g.unpack_from_vector v = some g2 ∧
      g2.pack_into_vector = some v) := by
  have hInz : (g.inodes.map fun i => tuple4_to_list i.to_tuple).isEmpty = false :=
    map_isEmpty_false _ _ hI
  have hEnz : (g.enodes.map fun e => tuple6_to_list e.to_tuple).isEmpty = false :=
    map_isEmpty_false _ _ hE
  constructor
  · -- unpack (pack g) = g
    set flatI := (g.inodes.map fun i => tuple4_to_list i.to_tuple).flatten with hflatI
    set flatE := (g.enodes.map fun e => tuple6_to_list e.to_tuple).flatten with hflatE
    have hpack : g.pack_into_vector = some (flatI ++ flatE) := by
      simp only [ConstraintGraph.pack_into_vector, hstack, hInz, hEnz,
        Bool.false_eq_true, if_false]
    refine ⟨flatI ++ flatE, hpack, ?_⟩
    have hlenI : flatI.length = 4 * g.inodes.length := flat4_length g.inodes
    have htake : (flatI ++ flatE).take (4 * g.inodes.length) = flatI := by
      rw [← hlenI]; exact List.take_left flatI flatE
    have hdrop : (flatI ++ flatE).drop (4 * g.inodes.length) = flatE := by
      rw [← hlenI]; exact List.drop_left flatI flatE
    have hmapI : (g.inodes.map fun i => tuple4_to_list i.to_tuple) =
        (g.inodes.map IntrinsicsNode.to_tuple).map tuple4_to_list := by
      rw [List.map_map]; rfl
    have hmapE : (g.enodes.map fun e => tuple6_to_list e.to_tuple) =
        (g.enodes.map ExtrinsicsNode.to_tuple).map tuple6_to_list := by
      rw [List.map_map]; rfl
    have hre4 : reshape4 flatI = some (g.inodes.map IntrinsicsNode.to_tuple) := by
      rw [hflatI, hmapI]; exact reshape4_of_flat _
    have hre6 : reshape6 flatE = some (g.enodes.map ExtrinsicsNode.to_tuple) := by
      rw [hflatE, hmapE]; exact reshape6_of_flat _
    simp only [ConstraintGraph.unpack_from_vector, htake, hdrop, hre4, hre6,
      zipWith_set4_self, zipWith_set6_self]
  · -- pack (unpack v) = v
    have hlenTake : (v.take (4 * g.inodes.length)).length =
        4 * g.inodes.length := by
      rw [List.length_take]; omega
    have hlenDrop : (v.drop (4 * g.inodes.length)).length =
        6 * g.enodes.length := by
      rw [List.length_drop]; omega
    obtain ⟨rows4, h41, h42, h43⟩ := reshape4_total g.inodes.length _ hlenTake
    obtain ⟨rows6, h61, h62, h63⟩ := reshape6_total g.enodes.length _ hlenDrop
    obtain ⟨hz41, hz42⟩ := zipWith_set4_flat g.inodes rows4 h43
    obtain ⟨hz61, hz62⟩ := zipWith_set6_flat g.enodes rows6 h63
    have hInz2 : ((List.zipWith IntrinsicsNode.set_value g.inodes rows4).map
        fun i => tuple4_to_list i.to_tuple).isEmpty = false := by
      refine map_isEmpty_false _ _ ?_
      intro hcon
      rw [hcon] at hz42
      exact hI (List.length_eq_zero.mp hz42.symm)
    have hEnz2 : ((List.zipWith ExtrinsicsNode.set_value g.enodes rows6).map
        fun e => tuple6_to_list e.to_tuple).isEmpty = false := by
      refine map_isEmpty_false _ _ ?_
      intro hcon
      rw [hcon] at hz62
      exact hE (List.length_eq_zero.mp hz62.symm)
    refine ⟨{ g with
        inodes := List.zipWith IntrinsicsNode.set_value g.inodes rows4,
        enodes := List.zipWith ExtrinsicsNode.set_value g.enodes rows6 },
      ?_, ?_⟩
    · simp only [ConstraintGraph.unpack_from_vector, h41, h61]
    · simp only [ConstraintGraph.pack_into_vector, hstack, hInz2, hEnz2,
        Bool.false_eq_true, if_false, hz41, hz61, h42, h62,
        List.take_append_drop]

/-- Witness for C3 (amended): a concrete one-intrinsics, one-extrinsics
graph and the concrete vector `[0,…,9]` of length `4·1 + 6·1` round-trip
both ways. -/
theorem pack_unpack_round_trip_witness :
    (∃ s, ConstraintGraph.pack_into_vector
        ⟨[⟨1, 2, 3, 4, "a"⟩], [⟨5, 6, 7, 8, 9, 10, "b"⟩], []⟩ = some s ∧
      ConstraintGraph.unpack_from_vector
        ⟨[⟨1, 2, 3, 4, "a"⟩], [⟨5, 6, 7, 8, 9, 10, "b"⟩], []⟩ s =
        some ⟨[⟨1, 2, 3, 4, "a"⟩], [⟨5, 6, 7, 8, 9, 10, "b"⟩], []⟩) ∧
    (∃ g2, ConstraintGraph.unpack_from_vector
        ⟨[⟨1, 2, 3, 4, "a"⟩], [⟨5, 6, 7, 8, 9, 10, "b"⟩], []⟩
        [0, 1, 2, 3, 4, 5, 6, 7, 8, 9] = some g2 ∧
      g2.pack_into_vector = some [0, 1, 2, 3, 4, 5, 6, 7, 8, 9]) :=
  pack_unpack_round_trip
    ⟨[⟨1, 2, 3, 4, "a"⟩], [⟨5, 6, 7, 8, 9, 10, "b"⟩], []⟩
    (by simp) (by simp) [0, 1, 2, 3, 4, 5, 6, 7, 8, 9] rfl

lemma Mraw_one (H : Mat3) : Mraw H 1 = H := by
  unfold Mraw
  rw [inv_one, one_mul]

lemma colNorm_one_0 : colNorm (1 : Mat3) 0 = 1 := by
  simp [colNorm, Fin.sum_univ_three, Matrix.one_apply]

lemma colNorm_one_1 : colNorm (1 : Mat3) 1 = 1 := by
  simp [colNorm, Fin.sum_univ_three, Matrix.one_apply]

lemma colNorm_neg (M : Mat3) (j : Fin 3) : colNorm (-M) j = colNorm M j := by
  unfold colNorm
  congr 1
  refine Finset.sum_congr rfl fun i _ => ?_
  rw [Matrix.neg_apply]
  ring

lemma scaleOf_one : scaleOf (1 : Mat3) = 1 := by
  unfold scaleOf
  rw [colNorm_one_0, colNorm_one_1, Real.sqrt_one, mul_one]

lemma scaleOf_neg (M : Mat3) : scaleOf (-M) = scaleOf M := by
  unfold scaleOf
  rw [colNorm_neg, colNorm_neg]

lemma Mscaled_one : Mscaled (1 : Mat3) = 1 := by
  unfold Mscaled
  ext i j
  rw [Matrix.of_apply, scaleOf_one, div_one]

lemma Mscaled_neg (M : Mat3) : Mscaled (-M) = -(Mscaled M) := by
  unfold Mscaled
  ext i j
  rw [Matrix.of_apply, scaleOf_neg, Matrix.neg_apply, Matrix.neg_apply,
    Matrix.of_apply, neg_div]

lemma Mcorrected_one : Mcorrected (1 : Mat3) = 1 := by
  unfold Mcorrected
  rw [Mscaled_one]
  rw [if_neg]
  simp [Matrix.one_apply]

lemma Mcorrected_neg_one : Mcorrected (-1 : Mat3) = -1 := by
  unfold Mcorrected
  rw [Mscaled_neg, Mscaled_one]
  rw [if_neg]
  simp [Matrix.one_apply]

lemma getE_entry_2_3 (svd3 : Mat3 → Mat3 × Mat3) (H K : Mat3) :
    get_extrinsics_from_homography svd3 H K 2 3 =
      Mcorrected (Mraw H K) 2 2 := rfl

/-- Claim C1: evaluating `get_extrinsics_from_homography` at the failing
input `H = I₃`, `K = I₃`.  There `M = K⁻¹H = I`, the code's test
`M[1,2] > 0` (the *y* component of the translation) is false so no sign
flip happens, and the returned pose places the representative world point
at camera-frame `z = +1 > 0`, contradicting the documented invariant
`z < 0`. -/
theorem sign_flip_tests_y_not_z :
    get_extrinsics_from_homography svdId3 1 1 2 3 = 1 ∧
    0 < get_extrinsics_from_homography svdId3 1 1 2 3 := by
  have h : get_extrinsics_from_homography svdId3 1 1 2 3 = 1 := by
    rw [getE_entry_2_3, Mraw_one, Mcorrected_one]
    exact Matrix.one_apply_eq 2
  exact ⟨h, by rw [h]; norm_num⟩

lemma Mraw_neg (H K : Mat3) : Mraw (-H) K = -(Mraw H K) := by
  unfold Mraw
  rw [Matrix.mul_neg]

lemma Mcorrected_neg_of_ne (M : Mat3) (h : Mscaled M 1 2 ≠ 0) :
    Mcorrected (-M) = Mcorrected M := by
  unfold Mcorrected
  rw [Mscaled_neg]
  rcases lt_or_gt_of_ne h with hneg | hpos
  · rw [if_pos (show (-(Mscaled M)) 1 2 > 0 by
        rw [Matrix.neg_apply]; linarith),
      if_neg (show ¬ (Mscaled M 1 2 > 0) by linarith), neg_neg]
  · rw [if_neg (show ¬ ((-(Mscaled M)) 1 2 > 0) by
        rw [Matrix.neg_apply]; simp only [gt_iff_lt, not_lt]; linarith),
      if_pos hpos]

/-- Claim C8 (counterexample): at `H = I₃`, `K = I₃` the sign-correction
pivot `M[1,2]` is exactly zero, so negating `H` negates the whole
corrected matrix without triggering the compensating flip: the recovered
translation `z` entry is `-1` for `-H` but `+1` for `H` — the two poses
differ. -/
theorem neg_homography_changes_pose_at_zero_pivot :
    get_extrinsics_from_homography svdId3 (-1) 1 2 3 <
      get_extrinsics_from_homography svdId3 1 1 2 3 := by
  have h1 : get_extrinsics_from_homography svdId3 (-1) 1 2 3 = -1 := by
    rw [getE_entry_2_3, Mraw_one, Mcorrected_neg_one, Matrix.neg_apply]
    rw [Matrix.one_apply_eq]
  have h2 : get_extrinsics_from_homography svdId3 1 1 2 3 = 1 := by
    rw [getE_entry_2_3, Mraw_one, Mcorrected_one]
    exact Matrix.one_apply_eq 2
  rw [h1, h2]
  norm_num

/-- Claim C8 (amended): whenever the sign-disambiguation pivot — entry
`[1,2]` of the rescaled `K⁻¹H` — is nonzero, flipping the overall sign of
the input homography yields exactly the same extrinsics matrix; the
invariance can fail only when that pivot is exactly zero. -/
theorem sign_invariance_away_from_zero_pivot (svd3 : Mat3 → Mat3 × Mat3)
    (H K : Mat3) (hpiv : Mscaled (Mraw H K) 1 2 ≠ 0) :
    get_extrinsics_from_homography svd3 (-H) K =
      get_extrinsics_from_homography svd3 H K := by
  unfold get_extrinsics_from_homography
  rw [Mraw_neg, Mcorrected_neg_of_ne _ hpiv]

/-- Witness for C8 (amended): a concrete homography whose pivot entry is
`1 ≠ 0`; negating it leaves the recovered extrinsics unchanged. -/
theorem sign_invariance_away_from_zero_pivot_witness :
    get_extrinsics_from_homography svdId3
        (-(Matrix.of ![![1, 0, 0], ![0, 1, 1], ![0, 0, 1]])) 1 =
      get_extrinsics_from_homography svdId3
        (Matrix.of ![![1, 0, 0], ![0, 1, 1], ![0, 0, 1]]) 1 := by
  refine sign_invariance_away_from_zero_pivot svdId3 _ 1 ?_
  rw [Mraw_one]
  have hc0 : colNorm (Matrix.of ![![1, 0, 0], ![0, 1, 1], ![0, 0, 1]]) 0 = 1 := by
    simp [colNorm, Fin.sum_univ_three, Matrix.vecHead, Matrix.vecTail]
  have hc1 : colNorm (Matrix.of ![![1, 0, 0], ![0, 1, 1], ![0, 0, 1]]) 1 = 1 := by
    simp [colNorm, Fin.sum_univ_three, Matrix.vecHead, Matrix.vecTail]
  have hs : scaleOf (Matrix.of ![![1, 0, 0], ![0, 1, 1], ![0, 0, 1]]) = 1 := by
    unfold scaleOf
    rw [hc0, hc1, Real.sqrt_one, mul_one]
  unfold Mscaled
  rw [Matrix.of_apply, hs, div_one]
  norm_num

lemma rot_block_getE (svd3 : Mat3 → Mat3 × Mat3) (H K : Mat3) :
    rot_block (get_extrinsics_from_homography svd3 H K) =
      (svd3 (rotCandidate (Mcorrected (Mraw H K)))).1 *
        (svd3 (rotCandidate (Mcorrected (Mraw H K)))).2 := by
  ext i j
  show get_extrinsics_from_homography svd3 H K i.castSucc j.castSucc = _
  unfold get_extrinsics_from_homography
  rw [Matrix.of_apply]
  rw [dif_pos (show ((i.castSucc : Fin 4) : ℕ) < 3 by
    simpa using i.isLt)]
  rw [dif_pos (show ((j.castSucc : Fin 4) : ℕ) < 3 by
    simpa using j.isLt)]
  congr 1

lemma getE_col3 (svd3 : Mat3 → Mat3 × Mat3) (H K : Mat3) (i : Fin 3) :
    get_extrinsics_from_homography svd3 H K i.castSucc 3 =
      Mcorrected (Mraw H K) i 2 := by
  unfold get_extrinsics_from_homography
  rw [Matrix.of_apply]
  rw [dif_pos (show ((i.castSucc : Fin 4) : ℕ) < 3 by
    simpa using i.isLt)]
  rw [dif_neg (show ¬ (((3 : Fin 4) : ℕ) < 3) by decide)]
  congr 1

/-- Claim C7: under the SVD contract (orthogonal `U` and `Vt`), the
matrix returned by `get_extrinsics_from_homography` is a valid rigid
transform: its 3×3 rotation block `R = U·Vt` satisfies `RᵀR = I` exactly,
its fourth row is `[0,0,0,1]`, and its translation column is the third
column of the rescaled, sign-corrected `K⁻¹H`. -/
theorem extrinsics_is_rigid_transform (svd3 : Mat3 → Mat3 × Mat3)
    (hsvd : ∀ A : Mat3, ((svd3 A).1)ᵀ * (svd3 A).1 = 1 ∧
      ((svd3 A).2)ᵀ * (svd3 A).2 = 1)
    (H K : Mat3) (hK : IsUnit K.det) (hscale : scaleOf (Mraw H K) ≠ 0) :
    (rot_block (get_extrinsics_from_homography svd3 H K))ᵀ *
      rot_block (get_extrinsics_from_homography svd3 H K) = 1 ∧
    (∀ j : Fin 4, get_extrinsics_from_homography svd3 H K 3 j =
      if (j : ℕ) = 3 then 1 else 0) ∧
    (∀ i : Fin 3, get_extrinsics_from_homography svd3 H K i.castSucc 3 =
      Mcorrected (Mraw H K) i 2) := by
  refine ⟨?_, ?_, getE_col3 svd3 H K⟩
  · rw [rot_block_getE]
    obtain ⟨hU, hV⟩ := hsvd (rotCandidate (Mcorrected (Mraw H K)))
    rw [Matrix.transpose_mul, mul_assoc, ← mul_assoc ((svd3 _).1)ᵀ, hU,
      one_mul, hV]
  · intro j
    rfl

/-- Witness for C7: with identity SVD factors and `H = K = I₃`, the
rotation block is orthonormal, the fourth row ends in `1`, and the
translation entry matches the corrected matrix. -/
theorem extrinsics_is_rigid_transform_witness :
    (rot_block (get_extrinsics_from_homography svdId3 1 1))ᵀ *
      rot_block (get_extrinsics_from_homography svdId3 1 1) = 1 ∧
    get_extrinsics_from_homography svdId3 1 1 3 3 = 1 ∧
    get_extrinsics_from_homography svdId3 1 1 (0 : Fin 3).castSucc 3 =
      Mcorrected (Mraw 1 1) 0 2 := by
  obtain ⟨h1, h2, h3⟩ := extrinsics_is_rigid_transform svdId3
    (by intro A; constructor <;> simp [svdId3])
    1 1 (by simp)
    (by rw [Mraw_one, scaleOf_one]; exact one_ne_zero)
  exact ⟨h1, h2 3, h3 0⟩

lemma xyzrph_entries (x y z r p h : ℝ) :
    xyzrph_to_matrix x y z r p h 0 0 = Real.cos h * Real.cos p ∧
    xyzrph_to_matrix x y z r p h 1 0 = Real.sin h * Real.cos p ∧
    xyzrph_to_matrix x y z r p h 2 0 = -Real.sin p ∧
    xyzrph_to_matrix x y z r p h 2 1 = Real.cos p * Real.sin r ∧
    xyzrph_to_matrix x y z r p h 2 2 = Real.cos p * Real.cos r ∧
    xyzrph_to_matrix x y z r p h 0 3 = x ∧
    xyzrph_to_matrix x y z r p h 1 3 = y ∧
    xyzrph_to_matrix x y z r p h 2 3 = z := by
  refine ⟨?_, ?_, ?_, ?_, ?_, ?_, ?_, ?_⟩ <;>
    simp [xyzrph_to_matrix, translateM, rotz, roty, rotx, Matrix.mul_apply,
      Fin.sum_univ_four, Matrix.vecHead, Matrix.vecTail]

lemma arctan2_mul_cos_sin (c t : ℝ) (hc : 0 < c)
    (ht : t ∈ Set.Ioc (-Real.pi) Real.pi) :
    arctan2 (c * Real.sin t) (c * Real.cos t) = t := by
  unfold arctan2
  have hmk : (⟨c * Real.cos t, c * Real.sin t⟩ : ℂ) =
      (c : ℂ) * ⟨Real.cos t, Real.sin t⟩ := by
    apply Complex.ext <;> simp [Complex.mul_re, Complex.mul_im]
  rw [hmk, Complex.arg_real_mul _ hc]
  have h2 : (⟨Real.cos t, Real.sin t⟩ : ℂ) =
      Complex.cos t + Complex.sin t * Complex.I := by
    apply Complex.ext <;>
      simp [Complex.cos_ofReal_re, Complex.sin_ofReal_re,
        Complex.cos_ofReal_im, Complex.sin_ofReal_im]
  rw [h2, Complex.arg_cos_add_sin_mul_I ht]

lemma arctan2_sin_cos (t : ℝ) (ht : t ∈ Set.Ioc (-Real.pi) Real.pi) :
    arctan2 (Real.sin t) (Real.cos t) = t := by
  have := arctan2_mul_cos_sin 1 t one_pos ht
  simpa using this

/-- Claim C9: for `r, h ∈ (-π, π]` and `p ∈ (-π/2, π/2)`, the 6-tuple
`(x, y, z, r, p, h)` round-trips exactly through
`matrix_to_xyzrph ∘ xyzrph_to_matrix`. -/
theorem xyzrph_round_trip (x y z r p h : ℝ)
    (hr : r ∈ Set.Ioc (-Real.pi) Real.pi)
    (hp : p ∈ Set.Ioo (-(Real.pi / 2)) (Real.pi / 2))
    (hh : h ∈ Set.Ioc (-Real.pi) Real.pi) :
    matrix_to_xyzrph (xyzrph_to_matrix x y z r p h) = (x, y, z, r, p, h) := by
  obtain ⟨h00, h10, h20, h21, h22, h03, h13, h23⟩ := xyzrph_entries x y z r p h
  have hcp : 0 < Real.cos p := Real.cos_pos_of_mem_Ioo hp
  have hpi := Real.pi_pos
  have hpIoc : p ∈ Set.Ioc (-Real.pi) Real.pi := by
    obtain ⟨hp1, hp2⟩ := hp
    exact ⟨by linarith, by linarith⟩
  unfold matrix_to_xyzrph
  rw [h00, h10, h20, h21, h22, h03, h13, h23]
  have hsqrt : Real.sqrt (Real.cos h * Real.cos p * (Real.cos h * Real.cos p) +
      Real.sin h * Real.cos p * (Real.sin h * Real.cos p)) = Real.cos p := by
    have hsum : Real.cos h * Real.cos p * (Real.cos h * Real.cos p) +
        Real.sin h * Real.cos p * (Real.sin h * Real.cos p) =
        Real.cos p ^ 2 := by
      have hs := Real.sin_sq_add_cos_sq h
      calc Real.cos h * Real.cos p * (Real.cos h * Real.cos p) +
          Real.sin h * Real.cos p * (Real.sin h * Real.cos p) =
          (Real.sin h ^ 2 + Real.cos h ^ 2) * Real.cos p ^ 2 := by ring
        _ = 1 * Real.cos p ^ 2 := by rw [hs]
        _ = Real.cos p ^ 2 := one_mul _
    rw [hsum, Real.sqrt_sq hcp.le]
  rw [hsqrt, neg_neg]
  rw [arctan2_mul_cos_sin (Real.cos p) r hcp hr]
  rw [arctan2_sin_cos p hpIoc]
  rw [show arctan2 (Real.sin h * Real.cos p) (Real.cos h * Real.cos p) = h by
    rw [mul_comm (Real.sin h), mul_comm (Real.cos h)]
    exact arctan2_mul_cos_sin (Real.cos p) h hcp hh]

/-- Witness for C9: the concrete pose `(1, 2, 3, 0, 0, 0)` round-trips
exactly. -/
theorem xyzrph_round_trip_witness :
    matrix_to_xyzrph (xyzrph_to_matrix 1 2 3 0 0 0) = (1, 2, 3, 0, 0, 0) :=
  xyzrph_round_trip 1 2 3 0 0 0
    ⟨by linarith [Real.pi_pos], by linarith [Real.pi_pos]⟩
    ⟨by linarith [Real.pi_pos], by linarith [Real.pi_pos]⟩
    ⟨by linarith [Real.pi_pos], by linarith [Real.pi_pos]⟩

/-- Claim C6 (counterexample): with a singular-vector whose first
component is negative, `estimate_intrinsics_noskew_assume_cxy` does not
raise: it returns a matrix whose `alpha` entry is NaN (`np.sqrt` of a
negative value), silently. -/
theorem cxy_estimator_returns_nan_silently :
    (estimate_intrinsics_noskew_assume_cxy (fun _ => ![-1, 1, 1]) [1]
        (0, 0)).map (fun M => M 0 0) = .ok none := by
  unfold estimate_intrinsics_noskew_assume_cxy check_homographies
  rw [if_neg (by decide : ¬ ([(1 : Mat3)].length < 1))]
  show Except.ok _ = _
  simp only [Except.map]
  congr 1
  show npSqrt (1 / (-1 : ℝ)) = none
  unfold npSqrt
  rw [if_pos (by norm_num : (1 : ℝ) / (-1) < 0)]

/-- Claim C6 (amended): when the closed-form solve produces a negative
value under a square root, `estimate_intrinsics` and
`estimate_intrinsics_noskew` surface `ValueError` (from `math.sqrt`),
while `estimate_intrinsics_noskew_assume_cxy` instead silently returns a
matrix containing a NaN entry (from `np.sqrt`), with no exception. -/
theorem sqrt_negative_error_behavior :
    (∀ (svd6 : List (Fin 6 → ℝ) → Fin 6 → ℝ) (hs : List Mat3),
      2 ≤ hs.length →
      (camB_arg1 (svd6 (intrinsics_constraints hs) 0)
          (svd6 (intrinsics_constraints hs) 1)
          (svd6 (intrinsics_constraints hs) 2)
          (svd6 (intrinsics_constraints hs) 3)
          (svd6 (intrinsics_constraints hs) 4)
          (svd6 (intrinsics_constraints hs) 5) < 0 ∨
        camB_arg2 (svd6 (intrinsics_constraints hs) 0)
          (svd6 (intrinsics_constraints hs) 1)
          (svd6 (intrinsics_constraints hs) 2)
          (svd6 (intrinsics_constraints hs) 3)
          (svd6 (intrinsics_constraints hs) 4)
          (svd6 (intrinsics_constraints hs) 5) < 0) →
      estimate_intrinsics svd6 hs = .error .valueError) ∧
    (∀ (svd5 : List (Fin 5 → ℝ) → Fin 5 → ℝ) (hs : List Mat3),
      2 ≤ hs.length →
      (camB_arg1 (svd5 (noskew_constraints hs) 0) 0
          (svd5 (noskew_constraints hs) 1)
          (svd5 (noskew_constraints hs) 2)
          (svd5 (noskew_constraints hs) 3)
          (svd5 (noskew_constraints hs) 4) < 0 ∨
        camB_arg2 (svd5 (noskew_constraints hs) 0) 0
          (svd5 (noskew_constraints hs) 1)
          (svd5 (noskew_constraints hs) 2)
          (svd5 (noskew_constraints hs) 3)
          (svd5 (noskew_constraints hs) 4) < 0) →
      estimate_intrinsics_noskew svd5 hs = .error .valueError) ∧
    (∀ (svd3v : List (Fin 3 → ℝ) → Fin 3 → ℝ) (hs : List Mat3)
      (cxy : ℝ × ℝ), 1 ≤ hs.length →
      1 / svd3v (cxy_constraints hs cxy) 0 < 0 →
      ∃ M, estimate_intrinsics_noskew_assume_cxy svd3v hs cxy = .ok M ∧
        M 0 0 = none) := by
  refine ⟨?_, ?_, ?_⟩
  · intro svd6 hs hlen hneg
    unfold estimate_intrinsics check_homographies
    rw [if_neg (by omega : ¬ hs.length < 2)]
    exact cam_matrix_from_B_error_of_neg _ _ _ _ _ _ hneg
  · intro svd5 hs hlen hneg
    unfold estimate_intrinsics_noskew check_homographies
    rw [if_neg (by omega : ¬ hs.length < 2)]
    exact cam_matrix_from_B_error_of_neg _ _ _ _ _ _ hneg
  · intro svd3v hs cxy hlen hneg
    unfold estimate_intrinsics_noskew_assume_cxy check_homographies
    rw [if_neg (by omega : ¬ hs.length < 1)]
    refine ⟨_, rfl, ?_⟩
    show npSqrt (1 / svd3v (cxy_constraints hs cxy) 0) = none
    unfold npSqrt
    rw [if_pos hneg]

/-- Witness for C6 (amended): a concrete singular vector making the first
`sqrt` argument `-1` causes `estimate_intrinsics` to raise
`ValueError`. -/
theorem sqrt_negative_error_behavior_witness :
    estimate_intrinsics (fun _ => ![1, 0, 1, 0, 0, -1]) [1, 1] =
      .error .valueError :=
  sqrt_negative_error_behavior.1 (fun _ => ![1, 0, 1, 0, 0, -1]) [1, 1]
    (by decide)
    (Or.inl (show camB_arg1 1 0 1 0 0 (-1) < 0 by
      norm_num [camB_arg1, camB_lambda, camB_v0]))

end ZoomCalib
